import Mathlib

/-!
# bookstor_utils-go: the `logger` package

A shallow embedding of `logger/logger.go` and the properties of its
configuration resolution, caller tagging and logging entry points.

Go strings are modelled as lists of Unicode characters (`GoString`), so the
byte-level treatment of invalid UTF-8 by the `strings` package is outside the
model.  Of a record, the level, the message and the fields are modelled; the
timestamp and the annotations the logger adds by itself are not.  `Print`,
which renders its operands with the `%#v` directive, is not modelled.
-/

namespace BookstoreUtils

/-! ## Strings and the library functions the package calls -/

/-- A Go string, as the sequence of its characters. -/
abbrev GoString := List Char

/-- Go `unicode.IsSpace`: the Latin-1 cases of the switch, then the
`White_Space` property outside Latin-1. -/
def unicode_IsSpace (r : Char) : Bool :=
  let n := r.toNat
  if n ≤ 0xFF then
    n == 0x09 || n == 0x0A || n == 0x0B || n == 0x0C || n == 0x0D || n == 0x20 ||
      n == 0x85 || n == 0xA0
  else
    n == 0x1680 || (0x2000 ≤ n && n ≤ 0x200A) || n == 0x2028 || n == 0x2029 ||
      n == 0x202F || n == 0x205F || n == 0x3000

/-- Go `unicode.ToLower`: the ASCII range is computed directly, every other
character is looked up in the Unicode case table `tbl`, which is a parameter
of the model. -/
def unicode_ToLower (tbl : Char → Char) (r : Char) : Char :=
  if r.toNat ≤ 0x7F then
    if 'A'.toNat ≤ r.toNat ∧ r.toNat ≤ 'Z'.toNat then Char.ofNat (r.toNat + 32) else r
  else tbl r

/-- Go `strings.ToLower`: every character mapped through `unicode.ToLower`
(the ASCII fast path of the library computes the same string). -/
def strings_ToLower (tbl : Char → Char) (s : GoString) : GoString :=
  s.map (unicode_ToLower tbl)

/-- Go `strings.TrimFunc`: drop the leading run, then the trailing run, of
characters satisfying `f`. -/
def strings_TrimFunc (s : GoString) (f : Char → Bool) : GoString :=
  ((s.dropWhile f).reverse.dropWhile f).reverse

/-- Go `strings.TrimSpace`. -/
def strings_TrimSpace (s : GoString) : GoString :=
  strings_TrimFunc s unicode_IsSpace

/-- Go `strings.Trim(s, cutset)`: drop leading and trailing characters that
occur in `cutset`. -/
def strings_Trim (s cutset : GoString) : GoString :=
  strings_TrimFunc s (fun c => cutset.contains c)

/-- The process environment: a variable is unset (`none`) or holds a value. -/
abbrev Env := GoString → Option GoString

/-- Go `os.Getenv`: the value of the variable, the empty string when unset. -/
def os_Getenv (env : Env) (key : GoString) : GoString :=
  (env key).getD []

/-! ## Configuration resolution -/

/-- Name of the level variable. -/
def envLogLevel : GoString := "LOG_LEVEL".toList

/-- Name of the output variable. -/
def envLogOutput : GoString := "LOG_OUTPUT".toList

/-- A `zapcore.Level` is an `int8`; the levels are ordered by their value. -/
abbrev Level := Int

/-- Constant `zap.DebugLevel`. -/
def DebugLevel : Level := -1
/-- Constant `zap.InfoLevel`. -/
def InfoLevel : Level := 0
/-- Constant `zap.ErrorLevel`. -/
def ErrorLevel : Level := 2

/-- Source `getLevel` (logger.go, lines 31-42). -/
def getLevel (tbl : Char → Char) (env : Env) : Level :=
  let v := strings_TrimSpace (strings_ToLower tbl (os_Getenv env envLogLevel))
  if v = "debug".toList then DebugLevel
  else if v = "info".toList then InfoLevel
  else if v = "error".toList then ErrorLevel
  else InfoLevel

/-- Source `getOutput` (logger.go, lines 44-50).  The variable read is
`envLogLevel`, as in the source. -/
def getOutput (env : Env) : GoString :=
  let output := strings_TrimSpace (os_Getenv env envLogLevel)
  if output = "".toList then "stdout".toList else output

/-! ## Call stacks, `runtime` and `path` -/

/-- One frame of the call stack: the fully-qualified name of the function, and
the file and line of the statement the frame is executing. -/
structure Frame where
  function : GoString
  file : GoString
  line : Int
  deriving DecidableEq, Repr

/-- What the build fixes about the package: its import path, which prefixes
the name of each of its functions, and the recorded path of `logger.go`. -/
structure Build where
  pkgPath : GoString
  file : GoString

/-- Go `runtime.Caller(skip)` on a stack listed innermost first, whose head is
the function calling `runtime.Caller`: program counter (here the frame
itself, `none` for 0), file, line and the `ok` flag. -/
def runtime_Caller (stack : List Frame) (skip : Nat) : Option Frame × GoString × Int × Bool :=
  match stack.get? skip with
  | some f => (some f, f.file, f.line, true)
  | none => (none, [], 0, false)

/-- Go `runtime.FuncForPC(pc).Name()`: the name of the function, and the empty
string on the nil `*Func` obtained from a zero program counter. -/
def runtime_FuncForPC_Name (pc : Option Frame) : GoString :=
  match pc with
  | some f => f.function
  | none => []

/-- Go `strings.Split(s, sep)` for a separator of one character (the source
splits on "."): the segments between the occurrences of `sep`, always at
least one. -/
def strings_Split (sep : Char) : GoString → List GoString
  | [] => [[]]
  | c :: rest =>
    if c = sep then [] :: strings_Split sep rest
    else
      match strings_Split sep rest with
      | [] => [[c]]
      | seg :: segs => (c :: seg) :: segs

/-- Go `strings.LastIndexByte`: index of the last occurrence of `c`, or -1. -/
def strings_LastIndexByte : GoString → Char → Int
  | [], _ => -1
  | x :: rest, c =>
    let r := strings_LastIndexByte rest c
    if 0 ≤ r then r + 1 else if x = c then 0 else -1

/-- Go `path.Split`: the path up to and including its last slash, and the
rest. -/
def path_Split (p : GoString) : GoString × GoString :=
  let i := strings_LastIndexByte p '/'
  (p.take (i + 1).toNat, p.drop (i + 1).toNat)

/-- Reasons a modelled call does not return normally. -/
inductive Fault where
  /-- Run-time panic: index out of range. -/
  | indexOutOfRange (index : Int) (length : Nat)
  /-- Panic raised by `init` when the logger cannot be built. -/
  | buildFailed
  /-- The format string or an operand lies outside the modelled part of `fmt`. -/
  | formatNotModelled
  deriving DecidableEq, Repr

/-- Go slice indexing `xs[i]` with a signed index: a panic outside the
bounds. -/
def index {α : Type} (xs : List α) (i : Int) : Except Fault α :=
  if i < 0 then .error (.indexOutOfRange i xs.length)
  else
    match xs.get? i.toNat with
    | some x => .ok x
    | none => .error (.indexOutOfRange i xs.length)

/-! ## The part of `fmt` the package relies on -/

/-- An operand of a formatting call: an `int`, a `string`, or a slice of
operands (a Go slice of interface values). -/
inductive Value where
  | int (i : Int)
  | str (s : GoString)
  | slice (vs : List Value)

/-- Decimal rendering of a Go `int`. -/
def fmtInteger (i : Int) : GoString :=
  if i < 0 then '-' :: Nat.toDigits 10 i.natAbs else Nat.toDigits 10 i.toNat

mutual
/-- Rendering of one operand under the verbs `d`, `s` and `v` (no flags): a
slice is rendered as its elements under the same verb, separated by spaces, in
square brackets.  `none` is a combination that is not modelled. -/
def printValue (verb : Char) : Value → Option GoString
  | .int i => if verb = 'd' ∨ verb = 'v' then some (fmtInteger i) else none
  | .str s => if verb = 's' ∨ verb = 'v' then some s else none
  | .slice vs =>
    if verb = 'd' ∨ verb = 's' ∨ verb = 'v' then
      (printElems verb vs).map (fun body => '[' :: body ++ [']'])
    else none
/-- The elements of a slice, space separated. -/
def printElems (verb : Char) : List Value → Option GoString
  | [] => some []
  | [v] => printValue verb v
  | v :: w :: vs =>
    match printValue verb v, printElems verb (w :: vs) with
    | some a, some b => some (a ++ ' ' :: b)
    | _, _ => none
end

/-- Go `fmt.Sprintf` for formats made of literal text and the directives
`%d`, `%s`, `%v` and `%%`.  A directive without an operand left is rendered
as `%!verb(MISSING)`.  `none` is a call that is not modelled (another
directive, or operands left over). -/
def fmt_Sprintf : GoString → List Value → Option GoString
  | [], [] => some []
  | [], _ :: _ => none
  | '%' :: '%' :: rest, args => (fmt_Sprintf rest args).map ('%' :: ·)
  | '%' :: verb :: rest, [] =>
    if verb = 'd' ∨ verb = 's' ∨ verb = 'v' then
      (fmt_Sprintf rest []).map (("%!".toList ++ verb :: "(MISSING)".toList) ++ ·)
    else none
  | '%' :: verb :: rest, a :: args =>
    match printValue verb a, fmt_Sprintf rest args with
    | some x, some y => some (x ++ y)
    | _, _ => none
  | ['%'], _ => none
  | c :: rest, args => (fmt_Sprintf rest args).map (c :: ·)

/-! ## The part of `zap` the package relies on -/

/-- Payload of a `zap.Field`: the kinds the package builds, and `other` for a
field of any other kind supplied by a caller. -/
inductive FieldValue where
  | string (s : GoString)
  | error (msg : GoString)
  | skip
  | other (payload : GoString)
  deriving DecidableEq, Repr

/-- A `zap.Field`: key and payload. -/
structure Field where
  key : GoString
  value : FieldValue
  deriving DecidableEq, Repr

/-- Go `zap.String`. -/
def zap_String (key val : GoString) : Field := ⟨key, .string val⟩

/-- Go `zap.Skip`: the no-op field. -/
def zap_Skip : Field := ⟨[], .skip⟩

/-- Go `zap.NamedError`: the error stored under `key`; for a nil error
(`none`) the no-op field.  An error is represented by its message. -/
def zap_NamedError (key : GoString) (err : Option GoString) : Field :=
  match err with
  | none => zap_Skip
  | some e => ⟨key, .error e⟩

/-- An entry as the logger core writes it to the sink. -/
structure Record where
  level : Level
  msg : GoString
  fields : List Field
  deriving DecidableEq, Repr

/-- What the sink observes. -/
inductive Event where
  | write (r : Record)
  | sync
  deriving DecidableEq, Repr

/-- The sink: the events it has received so far, and whether its writes and
its syncs report an error. -/
structure Sink where
  events : List Event
  writeFails : Bool
  syncFails : Bool
  deriving DecidableEq, Repr

/-- Writing a record to the sink; the flag is the error reported. -/
def Sink.Write (s : Sink) (r : Record) : Sink × Bool :=
  ({ s with events := s.events ++ [.write r] }, s.writeFails)

/-- Syncing the sink; the flag is the error reported. -/
def Sink.Sync (s : Sink) : Sink × Bool :=
  ({ s with events := s.events ++ [.sync] }, s.syncFails)

/-- A built `zap.Logger`: minimum level, output path and sink. -/
structure ZapLogger where
  level : Level
  output : GoString
  sink : Sink
  deriving DecidableEq, Repr

/-- The level check of the logger core: `lvl` is at least the minimum. -/
def ZapLogger.Enabled (l : ZapLogger) (lvl : Level) : Bool :=
  decide (l.level ≤ lvl)

/-- Logging at level `lvl`: an enabled entry is written to the sink, and an
error of that write is not returned. -/
def ZapLogger.Log (l : ZapLogger) (lvl : Level) (msg : GoString) (fields : List Field) :
    ZapLogger :=
  if l.Enabled lvl then { l with sink := (l.sink.Write ⟨lvl, msg, fields⟩).1 } else l

/-- Go `(*zap.Logger).Info`. -/
def ZapLogger.Info (l : ZapLogger) (msg : GoString) (fields : List Field) : ZapLogger :=
  l.Log InfoLevel msg fields

/-- Go `(*zap.Logger).Error`. -/
def ZapLogger.Error (l : ZapLogger) (msg : GoString) (fields : List Field) : ZapLogger :=
  l.Log ErrorLevel msg fields

/-- Go `(*zap.Logger).Sync`: syncs the sink and returns its error. -/
def ZapLogger.Sync (l : ZapLogger) : ZapLogger × Bool :=
  ({ l with sink := (l.sink.Sync).1 }, (l.sink.Sync).2)

/-! ## The package -/

/-- Source type `logger` (logger.go, lines 27-29). -/
structure logger where
  log : ZapLogger
  deriving DecidableEq, Repr

/-- Source `init` (logger.go, lines 52-72): the logger is built from the
resolved output and level; `openSink` stands for opening the output path, and
a failure to open it is the panic of `init`. -/
def init (tbl : Char → Char) (env : Env) (openSink : GoString → Option Sink) :
    Except Fault logger :=
  match openSink (getOutput env) with
  | some sink => .ok ⟨⟨getLevel tbl env, getOutput env, sink⟩⟩
  | none => .error .buildFailed

/-- Frame of a function of the package executing line `line` of logger.go. -/
def pkgFrame (b : Build) (name : String) (line : Int) : Frame :=
  ⟨b.pkgPath ++ '.' :: name.toList, b.file, line⟩

/-- Source `retrieveCallInfo` (logger.go, lines 103-113), called with the
stack `callers` of its caller (innermost first). -/
def retrieveCallInfo (b : Build) (callers : List Frame) : Except Fault Field :=
  let stack := pkgFrame b "retrieveCallInfo" 104 :: callers
  match runtime_Caller stack 1 with
  | (programCounter, file, line, _) =>
    let functionCalled := strings_Split '.' (runtime_FuncForPC_Name programCounter)
    let pl : Int := functionCalled.length
    match index functionCalled (pl - 1) with
    | .error e => .error e
    | .ok funcName =>
      match index functionCalled (pl - 2) with
      | .error e => .error e
      | .ok pkg =>
        let pkg := strings_Trim pkg "()*".toList
        let filename := (path_Split file).2
        match fmt_Sprintf "%s/%s - %s : %d".toList
            [.str pkg, .str filename, .str funcName, .int line] with
        | none => .error .formatNotModelled
        | some caller => .ok (zap_String "caller".toList caller)

/-- Source `Info` (logger.go, lines 90-94), called by a function whose stack
is `callers`. -/
def Info (b : Build) (log : logger) (callers : List Frame) (msg : GoString)
    (tags : List Field) : Except Fault logger :=
  match retrieveCallInfo b (pkgFrame b "Info" 91 :: callers) with
  | .error e => .error e
  | .ok field =>
    let tags := tags ++ [field]
    let l := log.log.Info msg tags
    .ok ⟨(l.Sync).1⟩

/-- Source `Error` (logger.go, lines 96-101). -/
def Error (b : Build) (log : logger) (callers : List Frame) (msg : GoString)
    (err : Option GoString) (tags : List Field) : Except Fault logger :=
  let tags := tags ++ [zap_NamedError "error".toList err]
  match retrieveCallInfo b (pkgFrame b "Error" 98 :: callers) with
  | .error e => .error e
  | .ok field =>
    let tags := tags ++ [field]
    let l := log.log.Error msg tags
    .ok ⟨(l.Sync).1⟩

/-- Source `logger.Printf` (logger.go, lines 82-88).  With operands the
source passes the slice `v` itself as the single operand of `fmt.Sprintf`. -/
def Printf (b : Build) (log : logger) (callers : List Frame) (format : GoString)
    (v : List Value) : Except Fault logger :=
  if v.length = 0 then
    Info b log (pkgFrame b "logger.Printf" 84 :: callers) format []
  else
    match fmt_Sprintf format [.slice v] with
    | none => .error .formatNotModelled
    | some m => Info b log (pkgFrame b "logger.Printf" 86 :: callers) m []

/-! ## Concrete inputs used below -/

/-- A build of the module under its repository path. -/
def build0 : Build :=
  ⟨"github.com/JenniO/bookstor_utils-go/logger".toList,
   "/go/src/github.com/JenniO/bookstor_utils-go/logger/logger.go".toList⟩

/-- An application frame: function `handleRequest` of package `main` at line
42 of main.go. -/
def appFrame : Frame := ⟨"main.handleRequest".toList, "/app/main.go".toList, 42⟩

/-- A logger with minimum level `lvl` over an empty sink. -/
def loggerAt (lvl : Level) : logger := ⟨⟨lvl, "stdout".toList, ⟨[], false, false⟩⟩⟩

/-- An environment given by a finite list of bindings, first match wins. -/
def envOf (bs : List (String × String)) : Env :=
  fun k => (bs.find? (fun b => b.1.toList = k)).map (fun b => b.2.toList)

/-- A sink that has received nothing and reports no error. -/
def freshSink : Sink := ⟨[], false, false⟩

/-- Opening an output path, when every path can be opened. -/
def openAny : GoString → Option Sink := fun _ => some freshSink

/-! ## The caller tag in the words of the specification -/

/-- The characters `strings.Trim` removes from the package qualifier. -/
def isDecoration (c : Char) : Prop := c = '(' ∨ c = ')' ∨ c = '*'

/-- Spec wording of the parts of a caller tag, for a function name `q` and a
file path `p`: `fn` is the last "."-separated segment of `q`; `pkg` is the
second-to-last segment `mid` without its leading and trailing "(", ")" and
"*"; `base` is the part of `p` after its last "/", all of `p` when it has
none. -/
def TagParts (q p fn pkg base : GoString) : Prop :=
  ∃ pre mid lead trail dir,
    q = pre ++ mid ++ '.' :: fn ∧ '.' ∉ mid ∧ '.' ∉ fn ∧
    (pre = [] ∨ ∃ r, pre = r ++ ['.']) ∧
    mid = lead ++ pkg ++ trail ∧
    (∀ c ∈ lead, isDecoration c) ∧ (∀ c ∈ trail, isDecoration c) ∧
    (∀ c, pkg.head? = some c → ¬ isDecoration c) ∧
    (∀ c, pkg.getLast? = some c → ¬ isDecoration c) ∧
    p = dir ++ base ∧ '/' ∉ base ∧ (dir = [] ∨ ∃ d, dir = d ++ ['/'])

/-- Spec wording of the tag: `pkg/base - fn : line`, the line in decimal. -/
def tagText (pkg base fn : GoString) (line : Int) : GoString :=
  pkg ++ "/".toList ++ base ++ " - ".toList ++ fn ++ " : ".toList ++ fmtInteger line

/-! ## Trimming -/

theorem dropWhile_decomp (f : Char → Bool) (s : GoString) :
    ∃ pre, s = pre ++ s.dropWhile f ∧ ∀ c ∈ pre, f c = true := by
  refine ⟨s.takeWhile f, (List.takeWhile_append_dropWhile f s).symm, ?_⟩
  intro c hc
  exact List.mem_takeWhile_imp hc

theorem dropWhile_head (f : Char → Bool) (s : GoString) (c : Char)
    (h : (s.dropWhile f).head? = some c) : f c = false := by
  have := List.head?_dropWhile_not f s
  rw [h] at this
  exact this

theorem dropWhile_of_head (f : Char → Bool) (s : GoString)
    (h : ∀ c, s.head? = some c → f c = false) : s.dropWhile f = s := by
  cases s with
  | nil => rfl
  | cons a t =>
    have := h a rfl
    simp [List.dropWhile_cons, this]

theorem TrimFunc_suffix (s : GoString) (f : Char → Bool) :
    ∃ post, s.dropWhile f = strings_TrimFunc s f ++ post ∧ ∀ c ∈ post, f c = true := by
  obtain ⟨post, h2, hpost⟩ := dropWhile_decomp f (s.dropWhile f).reverse
  refine ⟨post.reverse, ?_, ?_⟩
  · have := congrArg List.reverse h2
    simpa [strings_TrimFunc] using this
  · intro c hc
    exact hpost c (List.mem_reverse.mp hc)

theorem TrimFunc_decomp (s : GoString) (f : Char → Bool) :
    ∃ pre post, s = pre ++ strings_TrimFunc s f ++ post ∧
      (∀ c ∈ pre, f c = true) ∧ (∀ c ∈ post, f c = true) := by
  obtain ⟨pre, h1, hpre⟩ := dropWhile_decomp f s
  obtain ⟨post, h3, hpost⟩ := TrimFunc_suffix s f
  refine ⟨pre, post, ?_, hpre, hpost⟩
  rw [List.append_assoc, ← h3]
  exact h1

theorem TrimFunc_eq_nil_iff (s : GoString) (f : Char → Bool) :
    strings_TrimFunc s f = [] ↔ ∀ c ∈ s, f c = true := by
  constructor
  · intro h
    obtain ⟨pre, post, hs, hpre, hpost⟩ := TrimFunc_decomp s f
    rw [h] at hs
    intro c hc
    rw [hs] at hc
    simp at hc
    rcases hc with hc | hc
    · exact hpre c hc
    · exact hpost c hc
  · intro h
    have : s.dropWhile f = [] := by
      simpa [List.dropWhile_eq_nil_iff] using h
    simp [strings_TrimFunc, this]

theorem TrimFunc_head (s : GoString) (f : Char → Bool) (c : Char)
    (h : (strings_TrimFunc s f).head? = some c) : f c = false := by
  obtain ⟨post, h3, _⟩ := TrimFunc_suffix s f
  apply dropWhile_head f s c
  rw [h3]
  cases hT : strings_TrimFunc s f with
  | nil => rw [hT] at h; simp at h
  | cons a t => rw [hT] at h; simpa using h

theorem TrimFunc_getLast (s : GoString) (f : Char → Bool) (c : Char)
    (h : (strings_TrimFunc s f).getLast? = some c) : f c = false := by
  apply dropWhile_head f (s.dropWhile f).reverse c
  rw [← List.getLast?_reverse]
  exact h

theorem TrimFunc_of_ends (s : GoString) (f : Char → Bool)
    (hh : ∀ c, s.head? = some c → f c = false)
    (hl : ∀ c, s.getLast? = some c → f c = false) : strings_TrimFunc s f = s := by
  unfold strings_TrimFunc
  rw [dropWhile_of_head f s hh, dropWhile_of_head f s.reverse, List.reverse_reverse]
  intro c hc
  rw [List.head?_reverse] at hc
  exact hl c hc

theorem dropWhile_append_all (f : Char → Bool) (l r : GoString)
    (h : ∀ c ∈ l, f c = true) : (l ++ r).dropWhile f = r.dropWhile f := by
  induction l with
  | nil => rfl
  | cons a t ih =>
    have ha : f a = true := h a (List.mem_cons_self _ _)
    have ht : ∀ c ∈ t, f c = true := fun c hc => h c (List.mem_cons_of_mem _ hc)
    simp [List.dropWhile_cons, ha, ih ht]

theorem dropWhile_all (f : Char → Bool) (l : GoString) (h : ∀ c ∈ l, f c = true) :
    l.dropWhile f = [] :=
  List.dropWhile_eq_nil_iff.mpr h

/-- Trimming recovers the core of a string from any decomposition into a
run to trim, a core that neither starts nor ends with a character to trim,
and another run to trim. -/
theorem TrimFunc_unique (f : Char → Bool) (lead core trail : GoString)
    (hl : ∀ c ∈ lead, f c = true) (ht : ∀ c ∈ trail, f c = true)
    (hh : ∀ c, core.head? = some c → f c = false)
    (hlast : ∀ c, core.getLast? = some c → f c = false) :
    strings_TrimFunc (lead ++ core ++ trail) f = core := by
  unfold strings_TrimFunc
  rw [List.append_assoc, dropWhile_append_all f lead _ hl]
  cases hc : core with
  | nil =>
    simp [dropWhile_all f trail ht]
  | cons a t =>
    have hhead : ∀ c, (a :: t ++ trail).head? = some c → f c = false := by
      intro c h
      apply hh c
      rw [hc]
      simpa using h
    rw [dropWhile_of_head f _ hhead, List.reverse_append,
      dropWhile_append_all f trail.reverse _
        (fun c h => ht c (List.mem_reverse.mp h)),
      dropWhile_of_head f (a :: t).reverse, List.reverse_reverse]
    intro c h
    apply hlast c
    rw [hc, ← List.head?_reverse]
    exact h

theorem TrimFunc_map (s : GoString) (f : Char → Bool) (g : Char → Char)
    (hg : ∀ c, f (g c) = f c) :
    strings_TrimFunc (s.map g) f = (strings_TrimFunc s f).map g := by
  have hfg : f ∘ g = f := funext hg
  simp [strings_TrimFunc, List.dropWhile_map, ← List.map_reverse, hfg]

/-! ## Configuration resolution -/

/-- C1: `getLevel` resolves the level variable, lower-cased and trimmed of
surrounding whitespace, to the debug, info or error level when it is "debug",
"info" or "error", and to the info level for every other value, the empty
string and the unset variable included.  Trimming before lower-casing gives
the same normal form whenever lower-casing keeps whitespace and
non-whitespace apart, as the Unicode case table does. -/
theorem getLevel_resolves (tbl : Char → Char) (env : Env) :
    let raw := os_Getenv env envLogLevel
    let v := strings_TrimSpace (strings_ToLower tbl raw)
    (v = "debug".toList → getLevel tbl env = DebugLevel) ∧
    (v = "info".toList → getLevel tbl env = InfoLevel) ∧
    (v = "error".toList → getLevel tbl env = ErrorLevel) ∧
    (v ≠ "debug".toList → v ≠ "info".toList → v ≠ "error".toList →
      getLevel tbl env = InfoLevel) ∧
    (env envLogLevel = none → getLevel tbl env = InfoLevel) ∧
    (env envLogLevel = some [] → getLevel tbl env = InfoLevel) ∧
    ((∀ c, unicode_IsSpace (unicode_ToLower tbl c) = unicode_IsSpace c) →
      strings_ToLower tbl (strings_TrimSpace raw) = v) := by
  intro raw v
  have hdef : getLevel tbl env =
      if v = "debug".toList then DebugLevel
      else if v = "info".toList then InfoLevel
      else if v = "error".toList then ErrorLevel
      else InfoLevel := rfl
  refine ⟨?_, ?_, ?_, ?_, ?_, ?_, ?_⟩
  · intro h
    rw [hdef, if_pos h]
  · intro h
    rw [hdef, h]
    decide
  · intro h
    rw [hdef, h]
    decide
  · intro h1 h2 h3
    rw [hdef, if_neg h1, if_neg h2, if_neg h3]
  · intro h
    have hv : v = [] := by
      show strings_TrimSpace (strings_ToLower tbl (os_Getenv env envLogLevel)) = []
      simp [os_Getenv, h, strings_ToLower, strings_TrimSpace, strings_TrimFunc]
    rw [hdef, hv]
    decide
  · intro h
    have hv : v = [] := by
      show strings_TrimSpace (strings_ToLower tbl (os_Getenv env envLogLevel)) = []
      simp [os_Getenv, h, strings_ToLower, strings_TrimSpace, strings_TrimFunc]
    rw [hdef, hv]
    decide
  · intro htbl
    exact (TrimFunc_map raw unicode_IsSpace (unicode_ToLower tbl) htbl).symm

/-- Witness of C1: the value "  DeBuG" followed by a newline resolves to the
debug level. -/
theorem getLevel_resolves_witness :
    getLevel id (envOf [("LOG_LEVEL", "  DeBuG\n")]) = DebugLevel :=
  (getLevel_resolves id (envOf [("LOG_LEVEL", "  DeBuG\n")])).1 (by decide)

/-- C2: `getOutput` takes its value from LOG_LEVEL.  Two environments with
the same LOG_OUTPUT and different LOG_LEVEL get different outputs, and with
LOG_OUTPUT unset and LOG_LEVEL set the output is not "stdout". -/
theorem getOutput_reads_level_variable :
    getOutput (envOf [("LOG_LEVEL", "debug"), ("LOG_OUTPUT", "/tmp/app.log")]) = "debug".toList ∧
    getOutput (envOf [("LOG_LEVEL", "error"), ("LOG_OUTPUT", "/tmp/app.log")]) = "error".toList ∧
    getOutput (envOf [("LOG_LEVEL", "debug")]) = "debug".toList ∧
    getOutput (envOf [("LOG_OUTPUT", "/tmp/app.log")]) = "stdout".toList := by
  decide

/-- C3, as stated, fails: a value with surrounding whitespace is not returned
verbatim.  Here both variables hold the value " /tmp/app.log ". -/
theorem getOutput_not_verbatim :
    os_Getenv (envOf [("LOG_LEVEL", " /tmp/app.log "), ("LOG_OUTPUT", " /tmp/app.log ")])
        envLogLevel = " /tmp/app.log ".toList ∧
    getOutput (envOf [("LOG_LEVEL", " /tmp/app.log "), ("LOG_OUTPUT", " /tmp/app.log ")]) =
        "/tmp/app.log".toList ∧
    getOutput (envOf [("LOG_LEVEL", " /tmp/app.log "), ("LOG_OUTPUT", " /tmp/app.log ")]) ≠
        " /tmp/app.log ".toList := by
  decide

/-- C3, amended: for the value `s` that `getOutput` reads, the result is
"stdout" when `s` is empty or all whitespace; otherwise it is `s` without its
leading and trailing whitespace, which neither starts nor ends with
whitespace, and it is `s` itself when `s` has no whitespace at either end. -/
theorem getOutput_trimmed (env : Env) (s : GoString)
    (hs : os_Getenv env envLogLevel = s) :
    ((∀ c ∈ s, unicode_IsSpace c = true) → getOutput env = "stdout".toList) ∧
    ((∃ c ∈ s, unicode_IsSpace c = false) →
      getOutput env = strings_TrimSpace s ∧
      (∃ pre post, s = pre ++ getOutput env ++ post ∧
        (∀ c ∈ pre, unicode_IsSpace c = true) ∧ (∀ c ∈ post, unicode_IsSpace c = true)) ∧
      (∀ c, (getOutput env).head? = some c → unicode_IsSpace c = false) ∧
      (∀ c, (getOutput env).getLast? = some c → unicode_IsSpace c = false)) ∧
    ((∃ c ∈ s, unicode_IsSpace c = false) →
      (∀ c, s.head? = some c → unicode_IsSpace c = false) →
      (∀ c, s.getLast? = some c → unicode_IsSpace c = false) → getOutput env = s) := by
  have hdef : getOutput env =
      if strings_TrimSpace s = [] then "stdout".toList else strings_TrimSpace s := by
    rw [← hs]; rfl
  have hne : (∃ c ∈ s, unicode_IsSpace c = false) → strings_TrimSpace s ≠ [] := by
    rintro ⟨c, hc, hsp⟩ h
    have := (TrimFunc_eq_nil_iff s unicode_IsSpace).mp h c hc
    rw [hsp] at this
    exact Bool.noConfusion this
  refine ⟨?_, ?_, ?_⟩
  · intro h
    have hnil : strings_TrimSpace s = [] := (TrimFunc_eq_nil_iff s unicode_IsSpace).mpr h
    rw [hdef, if_pos hnil]
  · intro h
    have hout : getOutput env = strings_TrimSpace s := by rw [hdef, if_neg (hne h)]
    refine ⟨hout, ?_, ?_, ?_⟩
    · rw [hout]
      exact TrimFunc_decomp s unicode_IsSpace
    · intro c hc
      rw [hout] at hc
      exact TrimFunc_head s unicode_IsSpace c hc
    · intro c hc
      rw [hout] at hc
      exact TrimFunc_getLast s unicode_IsSpace c hc
  · intro h hh hl
    rw [hdef, if_neg (hne h)]
    exact TrimFunc_of_ends s unicode_IsSpace hh hl

/-- Witness of C3, amended: the value " /tmp/app.log " resolves to
"/tmp/app.log". -/
theorem getOutput_trimmed_witness :
    getOutput (envOf [("LOG_LEVEL", " /tmp/app.log ")]) =
      strings_TrimSpace " /tmp/app.log ".toList :=
  ((getOutput_trimmed (envOf [("LOG_LEVEL", " /tmp/app.log ")]) " /tmp/app.log ".toList
    (by decide)).2.1 ⟨'/', by decide, by decide⟩).1


/-! ## Splitting, indexing and formatting -/

theorem Split_ne_nil (sep : Char) (s : GoString) : strings_Split sep s ≠ [] := by
  cases s with
  | nil => simp [strings_Split]
  | cons c rest =>
    unfold strings_Split
    split
    · simp
    · split <;> simp

theorem Split_of_not_mem (sep : Char) (s : GoString) (h : sep ∉ s) :
    strings_Split sep s = [s] := by
  induction s with
  | nil => rfl
  | cons c rest ih =>
    have hc : c ≠ sep := fun e => h (e ▸ List.mem_cons_self _ _)
    have hr : sep ∉ rest := fun m => h (List.mem_cons_of_mem _ m)
    rw [strings_Split, if_neg hc, ih hr]

theorem Split_append (sep : Char) (a fn : GoString) (h : sep ∉ fn) :
    strings_Split sep (a ++ sep :: fn) = strings_Split sep a ++ [fn] := by
  induction a with
  | nil => simp [strings_Split, Split_of_not_mem sep fn h]
  | cons c rest ih =>
    by_cases hc : c = sep
    · simp [strings_Split, hc, ih]
    · rw [List.cons_append, strings_Split, if_neg hc, ih, strings_Split, if_neg hc]
      cases hS : strings_Split sep rest with
      | nil => exact absurd hS (Split_ne_nil sep rest)
      | cons seg segs => rfl

theorem exists_last_occurrence (c : Char) (q : GoString) (h : c ∈ q) :
    ∃ a fn, q = a ++ c :: fn ∧ c ∉ fn := by
  have hr : c ∈ q.reverse := List.mem_reverse.mpr h
  obtain ⟨as, bs, hq, hnot⟩ := List.eq_append_cons_of_mem hr
  refine ⟨bs.reverse, as.reverse, ?_, ?_⟩
  · have := congrArg List.reverse hq
    simpa using this
  · simpa using hnot

/-- The last two segments of a name that contains the separator. -/
theorem Split_last_two (sep : Char) (q : GoString) (h : sep ∈ q) :
    ∃ pre mid fn init, q = pre ++ mid ++ sep :: fn ∧ sep ∉ mid ∧ sep ∉ fn ∧
      (pre = [] ∨ ∃ p, pre = p ++ [sep]) ∧ strings_Split sep q = init ++ [mid, fn] := by
  obtain ⟨a, fn, hq, hfn⟩ := exists_last_occurrence sep q h
  by_cases ha : sep ∈ a
  · obtain ⟨p, mid, hp, hmid⟩ := exists_last_occurrence sep a ha
    refine ⟨p ++ [sep], mid, fn, strings_Split sep p, ?_, hmid, hfn, Or.inr ⟨p, rfl⟩, ?_⟩
    · rw [hq, hp]; simp
    · rw [hq, Split_append sep a fn hfn, hp, Split_append sep p mid hmid]; simp
  · refine ⟨[], a, fn, [], ?_, ha, hfn, Or.inl rfl, ?_⟩
    · rw [hq]; simp
    · rw [hq, Split_append sep a fn hfn, Split_of_not_mem sep a ha]; simp

theorem get?_last {α : Type} (xs : List α) (x y : α) :
    (xs ++ [x, y]).get? (xs.length + 1) = some y := by
  induction xs with
  | nil => rfl
  | cons a t ih => simpa using ih

theorem get?_before_last {α : Type} (xs : List α) (x y : α) :
    (xs ++ [x, y]).get? xs.length = some x := by
  induction xs with
  | nil => rfl
  | cons a t ih => simpa using ih

theorem index_last {α : Type} (xs : List α) (x y : α) :
    index (xs ++ [x, y]) (((xs ++ [x, y]).length : Int) - 1) = .ok y := by
  have h1 : ((xs ++ [x, y]).length : Int) - 1 = ((xs.length + 1 : Nat) : Int) := by
    simp; omega
  rw [h1]
  unfold index
  rw [if_neg (by omega), Int.toNat_ofNat, get?_last]

theorem index_before_last {α : Type} (xs : List α) (x y : α) :
    index (xs ++ [x, y]) (((xs ++ [x, y]).length : Int) - 2) = .ok x := by
  have h1 : ((xs ++ [x, y]).length : Int) - 2 = ((xs.length : Nat) : Int) := by
    simp
  rw [h1]
  unfold index
  rw [if_neg (by omega), Int.toNat_ofNat, get?_before_last]

theorem LastIndexByte_of_not_mem (c : Char) (s : GoString) (h : c ∉ s) :
    strings_LastIndexByte s c = -1 := by
  induction s with
  | nil => rfl
  | cons x rest ih =>
    have hx : x ≠ c := fun e => h (e ▸ List.mem_cons_self _ _)
    have hr : c ∉ rest := fun m => h (List.mem_cons_of_mem _ m)
    simp [strings_LastIndexByte, ih hr, hx]

theorem LastIndexByte_append (c : Char) (d base : GoString) (h : c ∉ base) :
    strings_LastIndexByte (d ++ c :: base) c = d.length := by
  induction d with
  | nil => simp [strings_LastIndexByte, LastIndexByte_of_not_mem c base h]
  | cons x rest ih =>
    simp only [List.cons_append, strings_LastIndexByte, ih]
    simp
    omega

/-- The second component of `path.Split` is what follows the last slash. -/
theorem path_Split_base (p : GoString) :
    ∃ dir, p = dir ++ (path_Split p).2 ∧ '/' ∉ (path_Split p).2 ∧
      (dir = [] ∨ ∃ d, dir = d ++ ['/']) := by
  by_cases h : '/' ∈ p
  · obtain ⟨d, base, hp, hbase⟩ := exists_last_occurrence '/' p h
    have h2 : (path_Split p).2 = base := by
      simp only [path_Split]
      rw [hp, LastIndexByte_append '/' d base hbase]
      have : ((d.length : Int) + 1).toNat = d.length + 1 := by omega
      rw [this]
      simp
    refine ⟨d ++ ['/'], ?_, ?_, Or.inr ⟨d, rfl⟩⟩
    · rw [h2, hp]; simp
    · rw [h2]; exact hbase
  · have h2 : (path_Split p).2 = p := by
      simp [path_Split, LastIndexByte_of_not_mem '/' p h]
    refine ⟨[], ?_, ?_, Or.inl rfl⟩
    · rw [h2]; rfl
    · rw [h2]; exact h

/-- The second component of `path.Split`, from any decomposition of the path
at its last slash. -/
theorem path_Split_unique (p dir base : GoString) (hp : p = dir ++ base)
    (hbase : '/' ∉ base) (hdir : dir = [] ∨ ∃ d, dir = d ++ ['/']) :
    (path_Split p).2 = base := by
  rcases hdir with hd | ⟨d, hd⟩
  · have hp2 : p = base := by rw [hp, hd]; rfl
    rw [hp2]
    simp [path_Split, LastIndexByte_of_not_mem '/' base hbase]
  · have hp2 : p = d ++ '/' :: base := by rw [hp, hd]; simp
    simp only [path_Split]
    rw [hp2, LastIndexByte_append '/' d base hbase]
    have : ((d.length : Int) + 1).toNat = d.length + 1 := by omega
    rw [this]
    simp

/-- The split of a name, from any decomposition at its last two separators. -/
theorem Split_unique (sep : Char) (q pre mid fn : GoString)
    (hq : q = pre ++ mid ++ sep :: fn) (hmid : sep ∉ mid) (hfn : sep ∉ fn)
    (hpre : pre = [] ∨ ∃ r, pre = r ++ [sep]) :
    ∃ init, strings_Split sep q = init ++ [mid, fn] := by
  rcases hpre with hp | ⟨r, hp⟩
  · refine ⟨[], ?_⟩
    rw [hq, hp, List.nil_append, Split_append sep mid fn hfn, Split_of_not_mem sep mid hmid]
    rfl
  · refine ⟨strings_Split sep r, ?_⟩
    have : pre ++ mid = r ++ sep :: mid := by rw [hp]; simp
    rw [hq, this, Split_append sep _ fn hfn, Split_append sep r mid hmid]
    simp

theorem Sprintf_caller (pkg filename funcName : GoString) (line : Int) :
    fmt_Sprintf "%s/%s - %s : %d".toList
        [.str pkg, .str filename, .str funcName, .int line] =
      some (pkg ++ "/".toList ++ filename ++ " - ".toList ++ funcName ++ " : ".toList ++
        fmtInteger line) := by
  simp [fmt_Sprintf, printValue]

/-! ## Caller resolution -/

set_option maxRecDepth 8000

/-- What `retrieveCallInfo` computes from the frame above its caller, once
the split of the function name is known. -/
theorem retrieveCallInfo_eval (b : Build) (fr : Frame) (rest : List Frame)
    (init : List GoString) (mid fn : GoString)
    (hS : strings_Split '.' fr.function = init ++ [mid, fn]) :
    retrieveCallInfo b (fr :: rest) =
      .ok (zap_String "caller".toList
        (strings_Trim mid "()*".toList ++ "/".toList ++ (path_Split fr.file).2 ++
          " - ".toList ++ fn ++ " : ".toList ++ fmtInteger fr.line)) := by
  simp only [retrieveCallInfo, runtime_Caller, List.get?, runtime_FuncForPC_Name]
  rw [hS, index_last, index_before_last]
  simp only [Sprintf_caller]

/-- The frames below the one `runtime.Caller(1)` resolves play no part. -/
theorem retrieveCallInfo_rest (b : Build) (fr : Frame) (rest other : List Frame) :
    retrieveCallInfo b (fr :: rest) = retrieveCallInfo b (fr :: other) := by
  simp only [retrieveCallInfo, runtime_Caller, List.get?]

theorem cutset_iff (c : Char) :
    ("()*".toList.contains c) = true ↔ (c = '(' ∨ c = ')' ∨ c = '*') := by
  simp [List.contains_iff_exists_mem_beq]

theorem cutset_false_iff (c : Char) :
    ("()*".toList.contains c) = false ↔ ¬ (c = '(' ∨ c = ')' ∨ c = '*') := by
  rw [← cutset_iff]; simp

/-- The tag built in an entry point of the package is fixed by the build: it
is the same for every stack of callers. -/
theorem entry_tag (b : Build) (name : String) (line : Int) :
    ∃ tag, ∀ callers, retrieveCallInfo b (pkgFrame b name line :: callers) =
      .ok (zap_String "caller".toList tag) := by
  have hmem : '.' ∈ (pkgFrame b name line).function := by simp [pkgFrame]
  obtain ⟨pre, mid, fn, init, -, -, -, -, hS⟩ := Split_last_two '.' _ hmem
  exact ⟨_, fun callers => retrieveCallInfo_eval b _ callers init mid fn hS⟩

/-- C4: the tag of a record is computed from the frame of the entry point.
`Info` called from `main.handleRequest` at line 42 of main.go tags the record
with `Info` and line 91 of logger.go, `Error` with `Error` and line 98, where
the frame of `handleRequest` gives "main/main.go - handleRequest : 42"; and
the result of either entry point is the same for every stack of callers. -/
theorem Info_tag_names_entry_point :
    Info build0 (loggerAt InfoLevel) [appFrame] "hello".toList [] =
      .ok ⟨⟨InfoLevel, "stdout".toList,
        ⟨[.write ⟨InfoLevel, "hello".toList,
            [zap_String "caller".toList
              "com/JenniO/bookstor_utils-go/logger/logger.go - Info : 91".toList]⟩,
          .sync], false, false⟩⟩⟩ ∧
    Error build0 (loggerAt InfoLevel) [appFrame] "failed".toList (some "boom".toList) [] =
      .ok ⟨⟨InfoLevel, "stdout".toList,
        ⟨[.write ⟨ErrorLevel, "failed".toList,
            [⟨"error".toList, .error "boom".toList⟩,
             zap_String "caller".toList
              "com/JenniO/bookstor_utils-go/logger/logger.go - Error : 98".toList]⟩,
          .sync], false, false⟩⟩⟩ ∧
    retrieveCallInfo build0 [appFrame] =
      .ok (zap_String "caller".toList "main/main.go - handleRequest : 42".toList) ∧
    (∀ (b : Build) (log : logger) (callers other : List Frame) (msg : GoString)
        (tags : List Field),
      Info b log callers msg tags = Info b log other msg tags) ∧
    (∀ (b : Build) (log : logger) (callers other : List Frame) (msg : GoString)
        (err : Option GoString) (tags : List Field),
      Error b log callers msg err tags = Error b log other msg err tags) := by
  refine ⟨by rfl, by rfl, by rfl, ?_, ?_⟩
  · intro b log callers other msg tags
    simp only [Info, retrieveCallInfo_rest b _ callers other]
  · intro b log callers other msg err tags
    simp only [Error, retrieveCallInfo_rest b _ callers other]

theorem isDecoration_iff (c : Char) :
    ("()*".toList.contains c) = true ↔ isDecoration c :=
  cutset_iff c

theorem not_isDecoration_iff (c : Char) :
    ("()*".toList.contains c) = false ↔ ¬ isDecoration c :=
  cutset_false_iff c

/-- Every name containing the separator, with every path, has tag parts. -/
theorem TagParts_exist (q p : GoString) (h : '.' ∈ q) :
    ∃ fn pkg base, TagParts q p fn pkg base := by
  obtain ⟨pre, mid, fn, init, hq, hmid, hfn, hpre, -⟩ := Split_last_two '.' q h
  obtain ⟨lead, trail, hm, hlead, htrail⟩ :=
    TrimFunc_decomp mid (fun c => "()*".toList.contains c)
  obtain ⟨dir, hp, hbase, hdir⟩ := path_Split_base p
  refine ⟨fn, strings_Trim mid "()*".toList, (path_Split p).2, pre, mid, lead, trail, dir,
    hq, hmid, hfn, hpre, hm, ?_, ?_, ?_, ?_, hp, hbase, hdir⟩
  · intro c hc
    exact (isDecoration_iff c).mp (hlead c hc)
  · intro c hc
    exact (isDecoration_iff c).mp (htrail c hc)
  · intro c hc
    exact (not_isDecoration_iff c).mp
      (TrimFunc_head mid (fun c => "()*".toList.contains c) c hc)
  · intro c hc
    exact (not_isDecoration_iff c).mp
      (TrimFunc_getLast mid (fun c => "()*".toList.contains c) c hc)

/-- C6: for a resolved frame whose function name contains a ".", the parts
named by the specification exist (`fn` the last "."-separated segment of the
name, `pkg` the second-to-last segment without its leading and trailing "(",
")" and "*", `base` the part of the file path after its last "/"), and for
any such parts the field returned has key "caller" and the string value
`pkg/base - fn : line`, the line in decimal. -/
theorem retrieveCallInfo_tag (b : Build) (fr : Frame) (rest : List Frame)
    (h : '.' ∈ fr.function) :
    (∃ fn pkg base, TagParts fr.function fr.file fn pkg base) ∧
    ∀ fn pkg base, TagParts fr.function fr.file fn pkg base →
      retrieveCallInfo b (fr :: rest) =
        .ok ⟨"caller".toList, .string (tagText pkg base fn fr.line)⟩ := by
  refine ⟨TagParts_exist fr.function fr.file h, ?_⟩
  rintro fn pkg base ⟨pre, mid, lead, trail, dir, hq, hmid, hfn, hpre, hm, hlead, htrail,
    hhead, hlast, hp, hbase, hdir⟩
  obtain ⟨init, hS⟩ := Split_unique '.' fr.function pre mid fn hq hmid hfn hpre
  have hT : strings_Trim mid "()*".toList = pkg := by
    rw [hm]
    exact TrimFunc_unique _ lead pkg trail
      (fun c hc => (isDecoration_iff c).mpr (hlead c hc))
      (fun c hc => (isDecoration_iff c).mpr (htrail c hc))
      (fun c hc => (not_isDecoration_iff c).mpr (hhead c hc))
      (fun c hc => (not_isDecoration_iff c).mpr (hlast c hc))
  have hB : (path_Split fr.file).2 = base := path_Split_unique fr.file dir base hp hbase hdir
  rw [retrieveCallInfo_eval b fr rest init mid fn hS, hT, hB]
  rfl

/-- Witness of C6: a method with a pointer receiver,
`example.com/shop/store.(*Repo).Save` at line 57 of /srv/shop/store/repo.go,
is tagged "Repo/repo.go - Save : 57". -/
theorem retrieveCallInfo_tag_witness :
    retrieveCallInfo build0
        [⟨"example.com/shop/store.(*Repo).Save".toList, "/srv/shop/store/repo.go".toList, 57⟩] =
      .ok ⟨"caller".toList, .string "Repo/repo.go - Save : 57".toList⟩ := by
  have hparts : TagParts "example.com/shop/store.(*Repo).Save".toList
      "/srv/shop/store/repo.go".toList "Save".toList "Repo".toList "repo.go".toList := by
    refine ⟨"example.com/shop/store.".toList, "(*Repo)".toList, "(*".toList, ")".toList,
      "/srv/shop/store/".toList, by decide, by decide, by decide,
      Or.inr ⟨"example.com/shop/store".toList, by decide⟩, by decide, ?_, ?_, ?_, ?_,
      by decide, by decide, Or.inr ⟨"/srv/shop/store".toList, by decide⟩⟩
    · intro c hc
      simp at hc
      rcases hc with rfl | rfl
      · exact Or.inl rfl
      · exact Or.inr (Or.inr rfl)
    · intro c hc
      simp at hc
      subst hc
      exact Or.inr (Or.inl rfl)
    · intro c hc
      simp at hc
      subst hc
      unfold isDecoration
      decide
    · intro c hc
      simp at hc
      subst hc
      unfold isDecoration
      decide
  exact (retrieveCallInfo_tag build0
    ⟨"example.com/shop/store.(*Repo).Save".toList, "/srv/shop/store/repo.go".toList, 57⟩ []
    (by decide)).2 _ _ _ hparts

/-! ## Entry points -/

/-- What `Info` does to the logger, for the tag fixed by the build. -/
theorem Info_eval (b : Build) :
    ∃ tag, ∀ (log : logger) (callers : List Frame) (msg : GoString) (tags : List Field),
      Info b log callers msg tags =
        .ok ⟨{ log.log with sink := { log.log.sink with events := log.log.sink.events ++
          (if log.log.level ≤ InfoLevel then
            [.write ⟨InfoLevel, msg, tags ++ [zap_String "caller".toList tag]⟩, .sync]
          else [.sync]) } }⟩ := by
  obtain ⟨tag, ht⟩ := entry_tag b "Info" 91
  refine ⟨tag, fun log callers msg tags => ?_⟩
  simp only [Info, ht callers, ZapLogger.Info, ZapLogger.Log, ZapLogger.Enabled,
    ZapLogger.Sync, Sink.Sync, Sink.Write]
  by_cases hl : log.log.level ≤ InfoLevel
  · simp [hl]
  · simp [hl]

/-- What `Error` does to the logger, for the tag fixed by the build. -/
theorem Error_eval (b : Build) :
    ∃ tag, ∀ (log : logger) (callers : List Frame) (msg : GoString) (err : Option GoString)
        (tags : List Field),
      Error b log callers msg err tags =
        .ok ⟨{ log.log with sink := { log.log.sink with events := log.log.sink.events ++
          (if log.log.level ≤ ErrorLevel then
            [.write ⟨ErrorLevel, msg,
              tags ++ [zap_NamedError "error".toList err, zap_String "caller".toList tag]⟩,
             .sync]
          else [.sync]) } }⟩ := by
  obtain ⟨tag, ht⟩ := entry_tag b "Error" 98
  refine ⟨tag, fun log callers msg err tags => ?_⟩
  simp only [Error, ht callers, ZapLogger.Error, ZapLogger.Log, ZapLogger.Enabled,
    ZapLogger.Sync, Sink.Sync, Sink.Write]
  by_cases hl : log.log.level ≤ ErrorLevel
  · simp [hl]
  · simp [hl]

theorem getLevel_le_ErrorLevel (tbl : Char → Char) (env : Env) :
    getLevel tbl env ≤ ErrorLevel := by
  unfold getLevel
  simp only []
  split_ifs <;> decide

/-- C7: with operands, `Printf` formats the slice of operands as one operand.
`Printf("x=%d", 5)` logs the message "x=[5]", where `fmt.Sprintf("x=%d", 5)`
is "x=5"; with two directives and two operands the second directive finds no
operand. -/
theorem Printf_formats_operand_slice :
    Printf build0 (loggerAt InfoLevel) [appFrame] "x=%d".toList [.int 5] =
      .ok ⟨⟨InfoLevel, "stdout".toList,
        ⟨[.write ⟨InfoLevel, "x=[5]".toList,
            [zap_String "caller".toList
              "com/JenniO/bookstor_utils-go/logger/logger.go - Info : 91".toList]⟩,
          .sync], false, false⟩⟩⟩ ∧
    fmt_Sprintf "x=%d".toList [.int 5] = some "x=5".toList ∧
    Printf build0 (loggerAt InfoLevel) [appFrame] "x=%d".toList [.int 5] ≠
      Info build0 (loggerAt InfoLevel) [appFrame] "x=5".toList [] ∧
    Printf build0 (loggerAt InfoLevel) [appFrame] "%d-%d".toList [.int 1, .int 2] =
      .ok ⟨⟨InfoLevel, "stdout".toList,
        ⟨[.write ⟨InfoLevel, "[1 2]-%!d(MISSING)".toList,
            [zap_String "caller".toList
              "com/JenniO/bookstor_utils-go/logger/logger.go - Info : 91".toList]⟩,
          .sync], false, false⟩⟩⟩ := by
  refine ⟨by rfl, by rfl, ?_, by rfl⟩
  have h1 : Printf build0 (loggerAt InfoLevel) [appFrame] "x=%d".toList [.int 5] =
      .ok ⟨⟨InfoLevel, "stdout".toList,
        ⟨[.write ⟨InfoLevel, "x=[5]".toList,
            [zap_String "caller".toList
              "com/JenniO/bookstor_utils-go/logger/logger.go - Info : 91".toList]⟩,
          .sync], false, false⟩⟩⟩ := by rfl
  have h2 : Info build0 (loggerAt InfoLevel) [appFrame] "x=5".toList [] =
      .ok ⟨⟨InfoLevel, "stdout".toList,
        ⟨[.write ⟨InfoLevel, "x=5".toList,
            [zap_String "caller".toList
              "com/JenniO/bookstor_utils-go/logger/logger.go - Info : 91".toList]⟩,
          .sync], false, false⟩⟩⟩ := by rfl
  rw [h1, h2]
  intro h
  injection h with h
  revert h
  decide

/-- C8, as stated, fails: with LOG_LEVEL=error the logger is built at the
level error, and `Printf` without operands puts no record in its sink, only
the sync. -/
theorem Printf_below_level_no_record :
    init id (envOf [("LOG_LEVEL", "error")]) openAny =
      .ok ⟨⟨ErrorLevel, "error".toList, freshSink⟩⟩ ∧
    Printf build0 ⟨⟨ErrorLevel, "error".toList, freshSink⟩⟩ [appFrame] "literal".toList [] =
      .ok ⟨⟨ErrorLevel, "error".toList, ⟨[.sync], false, false⟩⟩⟩ :=
  ⟨by rfl, by rfl⟩

/-- C8, amended: without operands `Printf(s)` does exactly what `Info(s)`
does, under every stack: when the configured level is debug or info the sink
receives one record of level info whose message is `s` itself and whose only
field is the caller tag, followed by the sync; at a higher configured level it
receives only the sync.  Verbs in `s` are not interpreted. -/
theorem Printf_no_operands (b : Build) :
    ∃ tag, ∀ (log : logger) (callers other : List Frame) (s : GoString),
      Printf b log callers s [] = Info b log other s [] ∧
      Printf b log callers s [] =
        .ok ⟨{ log.log with sink := { log.log.sink with events := log.log.sink.events ++
          (if log.log.level ≤ InfoLevel then
            [.write ⟨InfoLevel, s, [zap_String "caller".toList tag]⟩, .sync]
          else [.sync]) } }⟩ := by
  obtain ⟨tag, ht⟩ := Info_eval b
  refine ⟨tag, fun log callers other s => ?_⟩
  have hP : Printf b log callers s [] =
      Info b log (pkgFrame b "logger.Printf" 84 :: callers) s [] := by
    simp [Printf]
  rw [hP, ht log _ s [], ht log other s []]
  simp

/-- C9, as stated, fails: for a nil error the field placed before the caller
tag is the no-op field, which has no key, and no field has the key "error". -/
theorem Error_nil_error_no_field :
    Error build0 (loggerAt InfoLevel) [appFrame] "failed".toList none [] =
      .ok ⟨⟨InfoLevel, "stdout".toList,
        ⟨[.write ⟨ErrorLevel, "failed".toList,
            [⟨[], .skip⟩,
             zap_String "caller".toList
              "com/JenniO/bookstor_utils-go/logger/logger.go - Error : 98".toList]⟩,
          .sync], false, false⟩⟩⟩ :=
  by rfl

/-- C9, amended: on a logger whose level was resolved by `getLevel`, `Error`
hands the sink exactly one record, of level error, with message `msg` and with
the supplied fields in their order, then the field built by `zap.NamedError`
from "error" and `err`, then the caller tag; the sync follows.  For a non-nil
`err` that field has the key "error" and carries `err`; for a nil `err` it is
the no-op field. -/
theorem Error_record (b : Build) (tbl : Char → Char) (env : Env) :
    ∃ tag, ∀ (log : logger) (callers : List Frame) (msg : GoString) (err : Option GoString)
        (tags : List Field),
      log.log.level = getLevel tbl env →
      Error b log callers msg err tags =
        .ok ⟨{ log.log with sink := { log.log.sink with events := log.log.sink.events ++
          [.write ⟨ErrorLevel, msg,
            tags ++ [zap_NamedError "error".toList err, zap_String "caller".toList tag]⟩,
           .sync] } }⟩ ∧
      (∀ e, err = some e → zap_NamedError "error".toList err = ⟨"error".toList, .error e⟩) ∧
      (err = none → zap_NamedError "error".toList err = zap_Skip) := by
  obtain ⟨tag, ht⟩ := Error_eval b
  refine ⟨tag, fun log callers msg err tags hl => ⟨?_, ?_, ?_⟩⟩
  · have hle : log.log.level ≤ ErrorLevel := hl ▸ getLevel_le_ErrorLevel tbl env
    rw [ht log callers msg err tags, if_pos hle]
  · intro e he
    rw [he]; rfl
  · intro he
    rw [he]; rfl

/-- Witness of C9, amended: with every variable unset the level is info, and
`Error("failed", err)` with an error reading "boom" writes one error record
whose fields are the error under "error" and the caller tag. -/
theorem Error_record_witness :
    ∃ tag, Error build0 (loggerAt InfoLevel) [appFrame] "failed".toList (some "boom".toList) [] =
      .ok ⟨⟨InfoLevel, "stdout".toList,
        ⟨[.write ⟨ErrorLevel, "failed".toList,
            [⟨"error".toList, .error "boom".toList⟩, zap_String "caller".toList tag]⟩,
          .sync], false, false⟩⟩⟩ := by
  obtain ⟨tag, h⟩ := Error_record build0 id (envOf [])
  exact ⟨tag, (h (loggerAt InfoLevel) [appFrame] "failed".toList (some "boom".toList) []
    (by decide)).1⟩

/-- C10, as stated, fails: with LOG_LEVEL set to " ERROR " the logger is built
at the level error, and a call of `Info` appends no record write to its sink,
only the sync. -/
theorem Info_below_level_no_write :
    init id (envOf [("LOG_LEVEL", " ERROR ")]) openAny =
      .ok ⟨⟨ErrorLevel, "ERROR".toList, freshSink⟩⟩ ∧
    Info build0 ⟨⟨ErrorLevel, "ERROR".toList, freshSink⟩⟩ [appFrame] "hello".toList [] =
      .ok ⟨⟨ErrorLevel, "ERROR".toList, ⟨[.sync], false, false⟩⟩⟩ :=
  ⟨by rfl, by rfl⟩

/-- C10, amended: every call of `Info` and of `Error` returns normally,
whether or not the writes and syncs of the sink report an error, and leaves the
level, the output and the error behaviour of the sink unchanged.  A call of
`Error` on a logger whose level is at most error, and a call of `Info` on a
logger whose level is at most info, appends exactly one record write
immediately followed by one sync; a call whose level is below the configured
level appends only the sync.  Every level `getLevel` resolves is at most
error, and is at most info unless it is error. -/
theorem entry_points_flush (b : Build) (log : logger) (callers : List Frame)
    (msg : GoString) (err : Option GoString) (tags : List Field) :
    (∃ r, r.level = InfoLevel ∧ r.msg = msg ∧
      Info b log callers msg tags =
        .ok ⟨{ log.log with sink := { log.log.sink with events := log.log.sink.events ++
          (if log.log.level ≤ InfoLevel then [.write r, .sync] else [.sync]) } }⟩) ∧
    (∃ r, r.level = ErrorLevel ∧ r.msg = msg ∧
      Error b log callers msg err tags =
        .ok ⟨{ log.log with sink := { log.log.sink with events := log.log.sink.events ++
          (if log.log.level ≤ ErrorLevel then [.write r, .sync] else [.sync]) } }⟩) ∧
    (∀ (tbl : Char → Char) (env : Env), getLevel tbl env ≤ ErrorLevel ∧
      (getLevel tbl env ≤ InfoLevel ∨ getLevel tbl env = ErrorLevel)) := by
  obtain ⟨tagI, hI⟩ := Info_eval b
  obtain ⟨tagE, hE⟩ := Error_eval b
  refine ⟨⟨_, rfl, rfl, hI log callers msg tags⟩, ⟨_, rfl, rfl, hE log callers msg err tags⟩,
    fun tbl env => ⟨getLevel_le_ErrorLevel tbl env, ?_⟩⟩
  unfold getLevel
  simp only []
  split_ifs <;> decide

end BookstoreUtils
